import Mathlib

/-!
Shallow embedding of `src/pdf_generator.py` (repository SANMOSSA/juegos_cartas).

Images are identified by their source path (a `String`): `_load_card_image` is a
deterministic function of the path, so a page is modelled as the list of image
paths pasted into its slots, in slot order (slot `i` of a page is index `i` of
the list).  Filesystem effects are modelled by explicit state passing: a catalog
filesystem maps a base-directory path to its list of sub-folders, and an output
filesystem records the directories created and the documents written.
-/

namespace PdfGen

/-- Module-level constant `PAGE_WIDTH = 3111`. -/
def PAGE_WIDTH : ℤ := 3111

/-- Module-level constant `PAGE_HEIGHT = 4404`. -/
def PAGE_HEIGHT : ℤ := 4404

/-- Module-level constant `CARD_WIDTH = 796`. -/
def CARD_WIDTH : ℤ := 796

/-- Module-level constant `CARD_HEIGHT = 1244`. -/
def CARD_HEIGHT : ℤ := 1244

/-- Module-level constant `CARD_SPACING = 0`. -/
def CARD_SPACING : ℤ := 0

/-- Module-level constant `COLUMN_COUNT = 3`. -/
def COLUMN_COUNT : ℕ := 3

/-- Module-level constant `ROW_COUNT = 3`. -/
def ROW_COUNT : ℕ := 3

/-- Constant `CARDS_PER_PAGE = COLUMN_COUNT * ROW_COUNT` (= 9). -/
def CARDS_PER_PAGE : ℕ := COLUMN_COUNT * ROW_COUNT

/-- Constant  ALLOWED_EXTENSIONS, the set of accepted image suffixes. -/
def ALLOWED_EXTENSIONS : List String := [".png", ".jpg", ".jpeg", ".webp", ".bmp"]

/-- The `CardAsset` dataclass: a named card image with its source path. -/
structure CardAsset where
  name : String
  path : String
  deriving DecidableEq

/-- The `GameAssets` dataclass: a game folder's front cards and its back card. -/
structure GameAssets where
  name : String
  front_cards : List CardAsset
  back_card : CardAsset
  deriving DecidableEq

/-- A Python `Dict[str, int]` modelled as an association list (unique keys are a
dict invariant and appear as a `Nodup` hypothesis where needed). -/
abbrev QuantityMap : Type := List (String × ℤ)

/-- Python `dict.get(k, d)`: value of the first entry with key `k`, else default `d`. -/
def dictGet (m : List (String × ℤ)) (k : String) (d : ℤ) : ℤ :=
  match m.find? (fun p => p.1 == k) with
  | some p => p.2
  | none => d

/-- The dict comprehension `{card: int(max(0, value)) for card, value in card_counts.items()}`. -/
def normalizedCounts (m : List (String × ℤ)) : List (String × ℤ) :=
  m.map (fun p => (p.1, max 0 p.2))

/-- Python `sum(d.values())` for a dict modelled as an association list. -/
def sumValues (m : List (String × ℤ)) : ℤ :=
  (m.map (fun p => p.2)).sum

/-- The value `total_front_cards = sum(normalized_counts.values())` in `generate_pdf`. -/
def totalFrontCards (m : List (String × ℤ)) : ℤ :=
  sumValues (normalizedCounts m)

/-- Function `_iter_front_sequence`: for each card in catalog order, look its count up in
the (already normalized) counts dict, skip it when `count <= 0`, otherwise yield
its image `count` times.  The yielded images are modelled by the card's path. -/
def _iter_front_sequence (cards : List CardAsset) (counts : List (String × ℤ)) :
    List String :=
  cards.flatMap (fun card =>
    let count := dictGet counts card.name 0
    if count ≤ 0 then [] else List.replicate count.toNat card.path)

/-- Function `_iter_back_sequence`: `count` copies of the back image, none when `count <= 0`. -/
def _iter_back_sequence (path : String) (count : ℤ) : List String :=
  if count ≤ 0 then [] else List.replicate count.toNat path

/-- The loop of `_render_pages`: `cur` is the current page's pasted images in
reverse slot order (`cur = []` iff `current_page is None` / `slot_index == 0`),
`total` is `len(positions)`.  When the page reaches `total` slots it is
finalized and appended; a non-empty trailing page is finalized at the end. -/
def renderPagesGo {α : Type} (total : ℕ) : List α → List α → List (List α)
  | cur, [] => if cur.isEmpty then [] else [cur.reverse]
  | cur, img :: rest =>
      if (img :: cur).length = total then
        (img :: cur).reverse :: renderPagesGo total [] rest
      else
        renderPagesGo total (img :: cur) rest

/-- Function `_render_pages(card_sequence, positions)` with `len(positions) = CARDS_PER_PAGE`
(the `assert` in the source): pages as lists of pasted images in slot order. -/
def _render_pages {α : Type} (card_sequence : List α) : List (List α) :=
  renderPagesGo CARDS_PER_PAGE [] card_sequence

/-- The image pasted at slot `s` of page `p` (both 0-indexed) in a page list. -/
def getSlot {α : Type} (pages : List (List α)) (p s : ℕ) : Option α :=
  pages[p]?.bind (fun page => page[s]?)

/-- Python 3 `round`: round half to even (banker's rounding).  All floats that
reach `round` in `_compute_layout_positions` are exact multiples of 1/2, so the
computation embeds faithfully in `ℚ`. -/
def pythonRound (q : ℚ) : ℤ :=
  if q - ⌊q⌋ < 1/2 then ⌊q⌋
  else if (1 : ℚ)/2 < q - ⌊q⌋ then ⌊q⌋ + 1
  else if ⌊q⌋ % 2 = 0 then ⌊q⌋ else ⌊q⌋ + 1

/-- Local `effective_width` of `_compute_layout_positions`. -/
def effective_width : ℤ := COLUMN_COUNT * CARD_WIDTH + (COLUMN_COUNT - 1) * CARD_SPACING

/-- Local `effective_height` of `_compute_layout_positions`. -/
def effective_height : ℤ := ROW_COUNT * CARD_HEIGHT + (ROW_COUNT - 1) * CARD_SPACING

/-- Local `margin_x` of `_compute_layout_positions` (true division in `ℚ`). -/
def margin_x : ℚ := ((PAGE_WIDTH - effective_width : ℤ) : ℚ) / 2

/-- Local `margin_y` of `_compute_layout_positions` (true division in `ℚ`). -/
def margin_y : ℚ := ((PAGE_HEIGHT - effective_height : ℤ) : ℚ) / 2

/-- Local `x_positions` of `_compute_layout_positions`. -/
def x_positions : List ℤ :=
  (List.range COLUMN_COUNT).map
    (fun col : ℕ => pythonRound (margin_x + (col : ℚ) * ((CARD_WIDTH + CARD_SPACING : ℤ) : ℚ)))

/-- Local `y_positions` of `_compute_layout_positions`. -/
def y_positions : List ℤ :=
  (List.range ROW_COUNT).map
    (fun row : ℕ => pythonRound (margin_y + (row : ℚ) * ((CARD_HEIGHT + CARD_SPACING : ℤ) : ℚ)))

/-- Function `_compute_layout_positions`: centers the 3×3 grid on the page and emits the
slot coordinates row-major (each row left to right, rows top to bottom). -/
def _compute_layout_positions : List (ℤ × ℤ) :=
  y_positions.flatMap (fun y => x_positions.map (fun x => (x, y)))

/-- The two exceptions `generate_pdf` can raise: `ValueError` for an empty
selection, `RuntimeError` when no page was produced. -/
inductive GenError where
  | emptySelection
  | noPagesProduced
  deriving DecidableEq

/-- Output-side filesystem state: directories created and documents written.
A document is its list of pages (each page the list of images in slot order). -/
structure OutFS where
  dirs : List String
  files : List (String × List (List String))
  deriving DecidableEq

/-- Python `Path.mkdir(parents=True, exist_ok=True)` on the output directory. -/
def mkdirOut (fs : OutFS) (d : String) : OutFS :=
  if d ∈ fs.dirs then fs else ⟨d :: fs.dirs, fs.files⟩

/-- Function `generate_pdf(game, card_counts, output_dir)`.  Here `today` stands for
`datetime.now().strftime("%d-%m-%Y")`.  Returns the filesystem after the call
together with the raised error or the written document's path. -/
def generate_pdf (game : GameAssets) (card_counts : List (String × ℤ))
    (output_dir : String) (today : String) (fs : OutFS) :
    OutFS × Except GenError String :=
  let normalized_counts := normalizedCounts card_counts
  let total_front_cards := sumValues normalized_counts
  if total_front_cards ≤ 0 then
    (fs, Except.error GenError.emptySelection)
  else
    let fs1 := mkdirOut fs output_dir
    let document_name := game.name.toUpper ++ "_" ++ today ++ ".pdf"
    let document_path := output_dir ++ "/" ++ document_name
    let front_pages := _render_pages (_iter_front_sequence game.front_cards normalized_counts)
    let back_pages := _render_pages (_iter_back_sequence game.back_card.path total_front_cards)
    let pages := front_pages ++ back_pages
    if pages.isEmpty then
      (fs1, Except.error GenError.noPagesProduced)
    else
      (⟨fs1.dirs, (document_path, pages) :: fs1.files⟩, Except.ok document_path)

/-- A regular file inside a game folder, as its stem and suffix
(`Path.stem` / `Path.suffix`; the suffix includes the leading dot). -/
structure FileEntry where
  stem : String
  ext : String
  deriving DecidableEq

/-- The file's name, `stem + suffix`. -/
def fileName (f : FileEntry) : String := f.stem ++ f.ext

/-- Python `str.lower()` as used on the ASCII stems and suffixes here:
per-character lowercasing. -/
def lowerStr (s : String) : String := String.mk (s.data.map Char.toLower)

/-- A game sub-folder: its name and the regular files it contains. -/
structure Folder where
  name : String
  files : List FileEntry
  deriving DecidableEq

/-- Insertion step of the sort used to model Python's `sorted(...)`. -/
def insertByKey {α : Type} (key : α → String) (a : α) : List α → List α
  | [] => [a]
  | b :: bs => if key a < key b then a :: b :: bs else b :: insertByKey key a bs

/-- Python `sorted(...)` by a string key (insertion sort; only the ordering of the
result matters to the source, and keys are distinct file/folder names). -/
def sortByKey {α : Type} (key : α → String) (l : List α) : List α :=
  l.foldr (insertByKey key) []

/-- Function `_load_game_assets(folder)`: keep the allowed-extension files in sorted
order; files whose stem lowercases to `"parte_atras"` become the back card
(the last such file wins, as in the loop); the rest become the front cards in
order.  `Except.error ()` is the `ValueError` raised when no back card exists. -/
def _load_game_assets (folder : Folder) : Except Unit GameAssets :=
  let images := (sortByKey fileName folder.files).filter
    (fun f => lowerStr f.ext ∈ ALLOWED_EXTENSIONS)
  let front_cards := (images.filter (fun f => ¬ lowerStr f.stem = "parte_atras")).map
    (fun f => CardAsset.mk f.stem (folder.name ++ "/" ++ fileName f))
  match (images.filter (fun f => lowerStr f.stem = "parte_atras")).getLast? with
  | none => Except.error ()
  | some back =>
      Except.ok (GameAssets.mk folder.name front_cards
        (CardAsset.mk "parte_atras" (folder.name ++ "/" ++ fileName back)))

/-- Catalog-side filesystem state: each existing directory path mapped to the
sub-folders it contains. -/
abbrev CatalogFS : Type := List (String × List Folder)

/-- Python `Path(base_dir).mkdir(parents=True, exist_ok=True)`: create the base
directory (empty) when it does not exist. -/
def mkdirBase (fs : CatalogFS) (base : String) : CatalogFS :=
  match fs.find? (fun p => p.1 == base) with
  | some _ => fs
  | none => (base, []) :: fs

/-- Python `iterdir` restricted to directories: the sub-folders of `base`, none when
`base` does not exist. -/
def dirList (fs : CatalogFS) (base : String) : List Folder :=
  match fs.find? (fun p => p.1 == base) with
  | some p => p.2
  | none => []

/-- Python dict assignment `games[name] = assets` (overwrite on collision). -/
def dictInsert (acc : List (String × GameAssets)) (k : String) (v : GameAssets) :
    List (String × GameAssets) :=
  acc.eraseP (fun p => p.1 == k) ++ [(k, v)]

/-- One iteration of the folder loop of `list_games`: a folder whose
`_load_game_assets` raises `ValueError` is skipped, as is one with empty
`front_cards`; otherwise the game is entered into the mapping. -/
def listGamesStep (acc : List (String × GameAssets)) (folder : Folder) :
    List (String × GameAssets) :=
  match _load_game_assets folder with
  | Except.error _ => acc
  | Except.ok assets =>
      if assets.front_cards.isEmpty then acc else dictInsert acc assets.name assets

/-- The folder loop of `list_games`. -/
def listGamesLoop (folders : List Folder) : List (String × GameAssets) :=
  folders.foldl listGamesStep []

/-- Function `list_games(base_dir)`: creates the base directory if absent, then scans its
sorted sub-folders.  Returns the filesystem after the call and the mapping. -/
def list_games (fs : CatalogFS) (base : String) :
    CatalogFS × List (String × GameAssets) :=
  let fs1 := mkdirBase fs base
  let folders := sortByKey Folder.name (dirList fs1 base)
  (fs1, listGamesLoop folders)

/-! ### Generic lemmas about the page-compositing loop -/

/-- The pages produced by the loop, concatenated, recover the pending slot
contents followed by the remaining input. -/
theorem renderPagesGo_flatten {α : Type} (total : ℕ) :
    ∀ (rest cur : List α), (renderPagesGo total cur rest).flatten = cur.reverse ++ rest := by
  intro rest
  induction rest with
  | nil =>
      intro cur
      rcases eq_or_ne cur [] with h | h
      · simp [renderPagesGo, h]
      · simp [renderPagesGo, h]
  | cons img rest ih =>
      intro cur
      simp only [renderPagesGo]
      split
      · simp [ih]
      · simp [ih]

/-- A non-empty input sequence produces at least one page. -/
theorem renderPagesGo_ne_nil {α : Type} (total : ℕ) (rest : List α) (h : rest ≠ []) :
    renderPagesGo total ([] : List α) rest ≠ [] := by
  intro hnil
  have hj := renderPagesGo_flatten total rest ([] : List α)
  rw [hnil] at hj
  simp at hj
  exact h hj

/-- Number of pages produced with a 9-slot layout. -/
theorem renderPagesGo_length_nine {α : Type} :
    ∀ (rest cur : List α), cur.length < 9 →
      (renderPagesGo 9 cur rest).length = (cur.length + rest.length + 8) / 9 := by
  intro rest
  induction rest with
  | nil =>
      intro cur hc
      rcases eq_or_ne cur [] with h | h
      · subst h; simp [renderPagesGo]
      · have h1 : 0 < cur.length := List.length_pos.mpr h
        simp only [renderPagesGo, List.isEmpty_eq_true, h, if_false, List.length_singleton,
          List.length_nil]
        omega
  | cons img rest ih =>
      intro cur hc
      simp only [renderPagesGo]
      split
      · next h =>
          rw [List.length_cons] at h
          rw [List.length_cons, ih [] (by simp)]
          simp only [List.length_nil, List.length_cons, Nat.zero_add]
          omega
      · next h =>
          rw [List.length_cons] at h
          rw [ih (img :: cur) (by rw [List.length_cons]; omega)]
          simp only [List.length_cons]
          omega

/-- The first produced page starts with the pending slot contents. -/
theorem renderPagesGo_head_nine {α : Type} :
    ∀ (rest cur : List α), cur ≠ [] ∨ rest ≠ [] →
      ∃ t, (renderPagesGo 9 cur rest).head? = some (cur.reverse ++ t) := by
  intro rest
  induction rest with
  | nil =>
      intro cur h
      have hc : cur ≠ [] := by
        rcases h with h | h
        · exact h
        · exact absurd rfl h
      exact ⟨[], by simp [renderPagesGo, hc]⟩
  | cons img rest ih =>
      intro cur _
      simp only [renderPagesGo]
      split
      · exact ⟨[img], by simp⟩
      · obtain ⟨t, ht⟩ := ih (img :: cur) (Or.inl (by simp))
        exact ⟨img :: t, by rw [ht]; simp⟩

/-- Slot placement: with `k` slots already pending, the `n`-th remaining input
image ends up at page `(k + n) / 9`, slot `(k + n) % 9` of the produced pages. -/
theorem renderPagesGo_getSlot_nine {α : Type} :
    ∀ (rest cur : List α) (n : ℕ), cur.length < 9 → n < rest.length →
      getSlot (renderPagesGo 9 cur rest) ((cur.length + n) / 9) ((cur.length + n) % 9)
        = rest[n]? := by
  intro rest
  induction rest with
  | nil =>
      intro cur n _ hn
      simp at hn
  | cons img rest ih =>
      intro cur n hc hn
      match n with
      | 0 =>
          have hdiv : (cur.length + 0) / 9 = 0 := by omega
          have hmod : (cur.length + 0) % 9 = cur.length := by omega
          rw [hdiv, hmod]
          simp only [renderPagesGo]
          split
          · simp only [getSlot, List.getElem?_cons_zero, Option.some_bind,
              List.reverse_cons]
            rw [List.getElem?_append_right (by simp)]
            simp
          · obtain ⟨t, ht⟩ := renderPagesGo_head_nine rest (img :: cur) (Or.inl (by simp))
            simp only [getSlot]
            have h0 : (renderPagesGo 9 (img :: cur) rest)[0]? = some ((img :: cur).reverse ++ t) := by
              rw [← ht, List.head?_eq_getElem?]
            rw [h0]
            simp only [Option.some_bind, List.reverse_cons, List.append_assoc,
              List.singleton_append]
            rw [List.getElem?_append_right (by simp)]
            simp
      | Nat.succ m =>
          simp only [renderPagesGo]
          split
          · next h =>
              rw [List.length_cons] at h
              have hdiv : (cur.length + (m + 1)) / 9 = m / 9 + 1 := by omega
              have hmod : (cur.length + (m + 1)) % 9 = m % 9 := by omega
              rw [hdiv, hmod]
              simp only [getSlot, List.getElem?_cons_succ, List.getElem?_cons_succ]
              have := ih [] m (by simp) (by simpa using hn)
              simpa [getSlot] using this
          · next h =>
              rw [List.length_cons] at h
              have := ih (img :: cur) m (by rw [List.length_cons]; omega)
                (by simpa using hn)
              rw [List.length_cons] at this
              have harith : cur.length + (m + 1) = cur.length + 1 + m := by omega
              rw [harith]
              simpa using this

/-- When the input runs out mid-page, the last produced page holds exactly the
trailing `(k + len) % 9` input images. -/
theorem renderPagesGo_getLast_nine {α : Type} :
    ∀ (rest cur : List α), cur.length < 9 → 0 < (cur.length + rest.length) % 9 →
      (renderPagesGo 9 cur rest).getLast? =
        some ((cur.reverse ++ rest).drop
          ((cur.length + rest.length) - (cur.length + rest.length) % 9)) := by
  intro rest
  induction rest with
  | nil =>
      intro cur hc hm
      simp only [List.length_nil, Nat.add_zero] at hm
      have h0 : cur ≠ [] := by
        intro h
        subst h
        simp at hm
      have hdrop : cur.length + ([] : List α).length - (cur.length + ([] : List α).length) % 9
          = 0 := by
        simp only [List.length_nil, Nat.add_zero]
        omega
      rw [hdrop]
      simp [renderPagesGo, h0]
  | cons img rest ih =>
      intro cur hc hm
      simp only [renderPagesGo]
      split
      · next h =>
          rw [List.length_cons] at h
          have hr : 0 < rest.length % 9 := by
            simp only [List.length_cons] at hm
            omega
          have hrne : rest ≠ [] := by
            intro h'
            subst h'
            simp at hr
          have hne : renderPagesGo 9 ([] : List α) rest ≠ [] :=
            renderPagesGo_ne_nil 9 rest hrne
          have hih := ih [] (by simp) (by simpa using hr)
          simp only [List.length_nil, List.reverse_nil, List.nil_append, Nat.zero_add] at hih
          match e : renderPagesGo 9 ([] : List α) rest with
          | [] => exact absurd e hne
          | x :: L =>
              rw [e] at hih
              rw [List.getLast?_cons_cons, hih]
              congr 1
              simp only [List.length_cons]
              have e1 : cur.reverse ++ img :: rest = (cur.reverse ++ [img]) ++ rest := by
                simp
              have e2 : cur.length + (rest.length + 1) -
                  (cur.length + (rest.length + 1)) % 9
                  = (cur.reverse ++ [img]).length + (rest.length - rest.length % 9) := by
                simp only [List.length_append, List.length_reverse, List.length_singleton]
                omega
              rw [e1, e2, ← List.drop_drop, List.drop_left' rfl]
      · next h =>
          rw [List.length_cons] at h
          have hih := ih (img :: cur) (by rw [List.length_cons]; omega)
            (by simp only [List.length_cons]; simp only [List.length_cons] at hm; omega)
          simp only [List.length_cons] at hih
          simp only [List.length_cons]
          have e1 : (img :: cur).reverse ++ rest = cur.reverse ++ img :: rest := by
            simp
          have e2 : cur.length + 1 + rest.length = cur.length + (rest.length + 1) := by
            omega
          rw [e1, e2] at hih
          exact hih

/-! ### Lemmas about the quantity dict and the card sequences -/

theorem dictGet_cons (k : String) (v : ℤ) (m : List (String × ℤ)) (s : String) (d : ℤ) :
    dictGet ((k, v) :: m) s d = if k = s then v else dictGet m s d := by
  by_cases h : k = s <;> simp [dictGet, List.find?_cons, h]

theorem dictGet_eq_default (m : List (String × ℤ)) (s : String) (d : ℤ)
    (h : s ∉ m.map Prod.fst) : dictGet m s d = d := by
  induction m with
  | nil => simp [dictGet]
  | cons p m ih =>
      obtain ⟨k, v⟩ := p
      simp only [List.map_cons, List.mem_cons] at h
      push_neg at h
      rw [dictGet_cons, if_neg (fun hk => h.1 hk.symm)]
      exact ih h.2

theorem dictGet_normalized_nonneg (m : List (String × ℤ)) (s : String) :
    0 ≤ dictGet (normalizedCounts m) s 0 := by
  rcases e : (normalizedCounts m).find? (fun p => p.1 == s) with _ | p
  · simp [dictGet, e]
  · have hp := List.mem_of_find?_eq_some e
    simp only [normalizedCounts, List.mem_map] at hp
    obtain ⟨q, _, hq⟩ := hp
    have : (0 : ℤ) ≤ p.2 := by
      rw [← hq]
      exact le_max_left 0 q.2
    simpa [dictGet, e] using this

theorem normalizedCounts_keys (m : List (String × ℤ)) :
    (normalizedCounts m).map Prod.fst = m.map Prod.fst := by
  simp [normalizedCounts]

theorem normalizedCounts_nonneg (m : List (String × ℤ)) :
    ∀ p ∈ normalizedCounts m, 0 ≤ p.2 := by
  intro p hp
  simp only [normalizedCounts, List.mem_map] at hp
  obtain ⟨q, _, hq⟩ := hp
  rw [← hq]
  exact le_max_left 0 q.2

theorem sumValues_cons (k : String) (v : ℤ) (m : List (String × ℤ)) :
    sumValues ((k, v) :: m) = v + sumValues m := by
  simp [sumValues]

theorem totalFrontCards_nonneg (m : List (String × ℤ)) : 0 ≤ totalFrontCards m := by
  refine List.sum_nonneg ?_
  intro x hx
  simp only [List.mem_map] at hx
  obtain ⟨p, hp, hpx⟩ := hx
  rw [← hpx]
  exact normalizedCounts_nonneg m p hp

/-- Splitting off one dict entry whose key occurs among the card names. -/
theorem sum_map_ite_dictGet (cards : List CardAsset) (k : String) (v : ℤ)
    (m : List (String × ℤ)) (hnd : (cards.map CardAsset.name).Nodup)
    (hk : k ∈ cards.map CardAsset.name) (hgk : k ∉ m.map Prod.fst) :
    (cards.map (fun c => if k = c.name then v else dictGet m c.name 0)).sum
      = v + (cards.map (fun c => dictGet m c.name 0)).sum := by
  induction cards with
  | nil => simp at hk
  | cons c cs ih =>
      simp only [List.map_cons, List.nodup_cons] at hnd
      simp only [List.map_cons, List.mem_cons] at hk
      simp only [List.map_cons, List.sum_cons]
      by_cases hck : k = c.name
      · rw [if_pos hck]
        have hnotin : ∀ c' ∈ cs, ¬ (k = c'.name) := by
          intro c' hc' he
          exact hnd.1 (by
            rw [hck] at he
            rw [he]
            exact List.mem_map_of_mem CardAsset.name hc')
        have hcongr : cs.map (fun c' => if k = c'.name then v else dictGet m c'.name 0)
            = cs.map (fun c' => dictGet m c'.name 0) :=
          List.map_congr_left (fun c' hc' => by rw [if_neg (hnotin c' hc')])
        rw [hcongr, ← hck, dictGet_eq_default m k 0 hgk]
        ring
      · rw [if_neg hck]
        have hk' : k ∈ cs.map CardAsset.name := by
          rcases hk with h | h
          · exact absurd h hck
          · exact h
        rw [ih hnd.2 hk']
        ring

/-- When the dict's keys are distinct and all occur among the (distinct) card
names, iterating the cards and looking each name up accounts for every dict
value exactly once. -/
theorem sum_dictGet_eq (m : List (String × ℤ)) (cards : List CardAsset)
    (hmk : (m.map Prod.fst).Nodup) (hnd : (cards.map CardAsset.name).Nodup)
    (hsub : ∀ k ∈ m.map Prod.fst, k ∈ cards.map CardAsset.name) :
    (cards.map (fun c => dictGet m c.name 0)).sum = sumValues m := by
  induction m with
  | nil =>
      have hz : cards.map (fun c => dictGet [] c.name 0) = cards.map (fun _ => (0 : ℤ)) :=
        List.map_congr_left (fun c _ => dictGet_eq_default [] c.name 0 (by simp))
      rw [hz]
      simp [sumValues]
  | cons p m ih =>
      obtain ⟨k, v⟩ := p
      simp only [List.map_cons, List.nodup_cons] at hmk
      have hsplit : cards.map (fun c => dictGet ((k, v) :: m) c.name 0)
          = cards.map (fun c => if k = c.name then v else dictGet m c.name 0) :=
        List.map_congr_left (fun c _ => dictGet_cons k v m c.name 0)
      rw [hsplit]
      rw [sum_map_ite_dictGet cards k v m hnd (hsub k (by simp)) hmk.1]
      rw [ih hmk.2 (fun k' hk' => hsub k' (by simp [hk']))]
      rw [sumValues_cons]

/-- Without the key-coverage hypothesis the per-card lookups sum to at most the
dict's total, provided all values are non-negative. -/
theorem sum_dictGet_le (m : List (String × ℤ)) (cards : List CardAsset)
    (hmk : (m.map Prod.fst).Nodup) (hnd : (cards.map CardAsset.name).Nodup)
    (hvals : ∀ p ∈ m, 0 ≤ p.2) :
    (cards.map (fun c => dictGet m c.name 0)).sum ≤ sumValues m := by
  induction m with
  | nil =>
      have hz : cards.map (fun c => dictGet [] c.name 0) = cards.map (fun _ => (0 : ℤ)) :=
        List.map_congr_left (fun c _ => dictGet_eq_default [] c.name 0 (by simp))
      rw [hz]
      simp [sumValues]
  | cons p m ih =>
      obtain ⟨k, v⟩ := p
      simp only [List.map_cons, List.nodup_cons] at hmk
      have htail : ∀ p ∈ m, 0 ≤ p.2 := fun p hp => hvals p (List.mem_cons_of_mem _ hp)
      have hsplit : cards.map (fun c => dictGet ((k, v) :: m) c.name 0)
          = cards.map (fun c => if k = c.name then v else dictGet m c.name 0) :=
        List.map_congr_left (fun c _ => dictGet_cons k v m c.name 0)
      rw [hsplit, sumValues_cons]
      by_cases hk : k ∈ cards.map CardAsset.name
      · rw [sum_map_ite_dictGet cards k v m hnd hk hmk.1]
        exact add_le_add_left (ih hmk.2 htail) v
      · have hcongr : cards.map (fun c => if k = c.name then v else dictGet m c.name 0)
            = cards.map (fun c => dictGet m c.name 0) :=
          List.map_congr_left (fun c hc => by
            rw [if_neg (fun he => hk (by rw [he]; exact List.mem_map_of_mem CardAsset.name hc))])
        rw [hcongr]
        have hv : 0 ≤ v := hvals (k, v) (List.mem_cons_self _ _)
        have := ih hmk.2 htail
        omega

/-- Length of the front sequence, as the sum of the clamped per-card lookups. -/
theorem length_iter_front (cards : List CardAsset) (m : List (String × ℤ)) :
    ((_iter_front_sequence cards m).length : ℤ)
      = (cards.map (fun c => max 0 (dictGet m c.name 0))).sum := by
  induction cards with
  | nil => simp [_iter_front_sequence]
  | cons c cs ih =>
      simp only [_iter_front_sequence, List.flatMap_cons, List.length_append] at ih ⊢
      push_cast
      rw [ih]
      by_cases h : dictGet m c.name 0 ≤ 0
      · simp [h, max_eq_left h]
      · push_neg at h
        simp only [if_neg (not_le.mpr h), List.length_replicate, List.map_cons, List.sum_cons]
        rw [Int.toNat_of_nonneg h.le, max_eq_right h.le]

/-- Over the normalized counts the clamping is the identity. -/
theorem length_iter_front_normalized (cards : List CardAsset) (m : List (String × ℤ)) :
    ((_iter_front_sequence cards (normalizedCounts m)).length : ℤ)
      = (cards.map (fun c => dictGet (normalizedCounts m) c.name 0)).sum := by
  rw [length_iter_front]
  exact congrArg List.sum (List.map_congr_left
    (fun c _ => max_eq_right (dictGet_normalized_nonneg m c.name)))

/-- Length of the back sequence when the requested count is positive. -/
theorem length_iter_back (path : String) (count : ℤ) (h : 0 < count) :
    (_iter_back_sequence path count).length = count.toNat := by
  rw [_iter_back_sequence, if_neg (not_le.mpr h), List.length_replicate]

/-! ### Lemmas about the catalog -/

theorem mem_insertByKey {α : Type} (key : α → String) (a x : α) :
    ∀ l : List α, x ∈ insertByKey key a l ↔ x = a ∨ x ∈ l := by
  intro l
  induction l with
  | nil => simp [insertByKey]
  | cons b bs ih =>
      simp only [insertByKey]
      split
      · simp
      · rw [List.mem_cons, ih, List.mem_cons]
        tauto

theorem mem_sortByKey {α : Type} (key : α → String) (x : α) (l : List α) :
    x ∈ sortByKey key l ↔ x ∈ l := by
  induction l with
  | nil => simp [sortByKey]
  | cons b bs ih =>
      simp only [sortByKey, List.foldr_cons] at ih ⊢
      rw [mem_insertByKey, ih, List.mem_cons]

/-- Creating the base directory does not change which sub-folders it holds. -/
theorem dirList_mkdirBase (fs : CatalogFS) (base : String) :
    dirList (mkdirBase fs base) base = dirList fs base := by
  unfold mkdirBase dirList
  rcases e : fs.find? (fun p => p.1 == base) with _ | p
  · simp [e, List.find?_cons]
  · simp [e]

/-- Creating the base directory twice is the same as creating it once. -/
theorem mkdirBase_idem (fs : CatalogFS) (base : String) :
    mkdirBase (mkdirBase fs base) base = mkdirBase fs base := by
  rcases e : fs.find? (fun p => p.1 == base) with _ | p
  · have h1 : mkdirBase fs base = (base, []) :: fs := by unfold mkdirBase; rw [e]
    rw [h1]
    unfold mkdirBase
    simp [List.find?_cons]
  · have h1 : mkdirBase fs base = fs := by unfold mkdirBase; rw [e]
    rw [h1, h1]

/-- A successfully loaded game carries its folder's name. -/
theorem _load_game_assets_name (folder : Folder) (a : GameAssets)
    (h : _load_game_assets folder = Except.ok a) : a.name = folder.name := by
  simp only [_load_game_assets] at h
  split at h
  · exact absurd h (by simp)
  · rw [Except.ok.injEq] at h
    rw [← h]

/-- With no allowed-extension back-card file in the folder, loading raises
`ValueError`. -/
theorem load_error_of_no_back (folder : Folder)
    (h : ∀ f ∈ folder.files, lowerStr f.ext ∈ ALLOWED_EXTENSIONS →
      ¬ lowerStr f.stem = "parte_atras") :
    _load_game_assets folder = Except.error () := by
  simp only [_load_game_assets]
  have hnil : (((sortByKey fileName folder.files).filter
      (fun f => lowerStr f.ext ∈ ALLOWED_EXTENSIONS)).filter
      (fun f => lowerStr f.stem = "parte_atras")) = [] := by
    rw [List.filter_eq_nil_iff]
    intro f hf
    rw [List.mem_filter] at hf
    have hmem := (mem_sortByKey fileName f folder.files).mp hf.1
    have hext : lowerStr f.ext ∈ ALLOWED_EXTENSIONS := by simpa using hf.2
    simpa using h f hmem hext
  rw [hnil]
  rfl

/-- With no allowed-extension front-card file in the folder, any successfully
loaded game has empty `front_cards`. -/
theorem load_fronts_empty (folder : Folder)
    (h : ∀ f ∈ folder.files, lowerStr f.ext ∈ ALLOWED_EXTENSIONS →
      lowerStr f.stem = "parte_atras") :
    ∀ a, _load_game_assets folder = Except.ok a → a.front_cards = [] := by
  intro a ha
  simp only [_load_game_assets] at ha
  have hnil : (((sortByKey fileName folder.files).filter
      (fun f => lowerStr f.ext ∈ ALLOWED_EXTENSIONS)).filter
      (fun f => ¬ lowerStr f.stem = "parte_atras")) = [] := by
    rw [List.filter_eq_nil_iff]
    intro f hf
    rw [List.mem_filter] at hf
    have hmem := (mem_sortByKey fileName f folder.files).mp hf.1
    have hext : lowerStr f.ext ∈ ALLOWED_EXTENSIONS := by simpa using hf.2
    simpa using h f hmem hext
  rw [hnil] at ha
  split at ha
  · exact absurd ha (by simp)
  · rw [Except.ok.injEq] at ha
    rw [← ha]
    rfl

/-- The folder loop never enters a name whose every folder loads empty. -/
theorem listGamesLoop_aux (nm : String) :
    ∀ (folders : List Folder) (acc : List (String × GameAssets)),
      nm ∉ acc.map Prod.fst →
      (∀ f ∈ folders, f.name = nm →
        ∀ a, _load_game_assets f = Except.ok a → a.front_cards = []) →
      nm ∉ (folders.foldl listGamesStep acc).map Prod.fst := by
  intro folders
  induction folders with
  | nil =>
      intro acc hacc _
      simpa using hacc
  | cons f fs ih =>
      intro acc hacc hskip
      rw [List.foldl_cons]
      refine ih (listGamesStep acc f) ?_ (fun f' hf' => hskip f' (List.mem_cons_of_mem _ hf'))
      rcases e : _load_game_assets f with u | assets
      · simpa [listGamesStep, e] using hacc
      · simp only [listGamesStep, e]
        split
        · exact hacc
        · next hne =>
            simp only [dictInsert, List.map_append, List.mem_append]
            rintro (hin | hin)
            · apply hacc
              simp only [List.mem_map] at hin
              obtain ⟨q, hq, hq2⟩ := hin
              exact List.mem_map.mpr ⟨q, List.eraseP_subset _ hq, hq2⟩
            · simp only [List.map_cons, List.map_nil, List.mem_singleton] at hin
              have hname : assets.name = f.name := _load_game_assets_name f assets e
              have : f.name = nm := by rw [← hname, ← hin]
              have hempty := hskip f (List.mem_cons_self _ _) this assets e
              rw [hempty] at hne
              simp at hne

/-! ### Evaluation of the layout computation -/

theorem pythonRound_eq_of_int (q : ℚ) (n : ℤ) (h : q = (n : ℚ)) : pythonRound q = n := by
  have hf : ⌊q⌋ = n := by rw [h, Int.floor_intCast]
  unfold pythonRound
  rw [hf, h]
  norm_num

/-- Banker's rounding on an exact half: to the even neighbour. -/
theorem pythonRound_eq_of_half (q : ℚ) (n : ℤ) (h : q = (n : ℚ) + 1/2) :
    pythonRound q = if n % 2 = 0 then n else n + 1 := by
  have hf : ⌊q⌋ = n := by
    rw [Int.floor_eq_iff]
    constructor
    · rw [h]; norm_num
    · rw [h]; linarith
  unfold pythonRound
  rw [hf, h]
  have h1 : (n : ℚ) + 1/2 - n = 1/2 := by ring
  rw [h1]
  norm_num

/-- The horizontal margin is exactly 361.5 px, so banker's rounding lands the
columns at 362, 1158, 1954. -/
theorem x_positions_eq : x_positions = [362, 1158, 1954] := by
  unfold x_positions margin_x effective_width
  rw [show List.range COLUMN_COUNT = [0, 1, 2] from rfl]
  simp only [List.map_cons, List.map_nil]
  rw [pythonRound_eq_of_half _ 361 (by norm_num [PAGE_WIDTH, CARD_WIDTH, CARD_SPACING, COLUMN_COUNT]),
      pythonRound_eq_of_half _ 1157 (by norm_num [PAGE_WIDTH, CARD_WIDTH, CARD_SPACING, COLUMN_COUNT]),
      pythonRound_eq_of_half _ 1953 (by norm_num [PAGE_WIDTH, CARD_WIDTH, CARD_SPACING, COLUMN_COUNT])]
  norm_num

/-- The vertical margin is exactly 336 px, an integer, so the rows land at
336, 1580, 2824. -/
theorem y_positions_eq : y_positions = [336, 1580, 2824] := by
  unfold y_positions margin_y effective_height
  rw [show List.range ROW_COUNT = [0, 1, 2] from rfl]
  simp only [List.map_cons, List.map_nil]
  rw [pythonRound_eq_of_int _ 336 (by norm_num [PAGE_HEIGHT, CARD_HEIGHT, CARD_SPACING, ROW_COUNT]),
      pythonRound_eq_of_int _ 1580 (by norm_num [PAGE_HEIGHT, CARD_HEIGHT, CARD_SPACING, ROW_COUNT]),
      pythonRound_eq_of_int _ 2824 (by norm_num [PAGE_HEIGHT, CARD_HEIGHT, CARD_SPACING, ROW_COUNT])]

/-- The nine slot coordinates, row-major. -/
theorem compute_layout_positions_eq :
    _compute_layout_positions =
      [(362, 336), (1158, 336), (1954, 336), (362, 1580), (1158, 1580), (1954, 1580),
       (362, 2824), (1158, 2824), (1954, 2824)] := by
  unfold _compute_layout_positions
  rw [x_positions_eq, y_positions_eq]
  rfl

/-! ### `_render_pages` wrappers (the source always passes a 9-slot layout) -/

theorem _render_pages_flatten {α : Type} (l : List α) : (_render_pages l).flatten = l := by
  have h := renderPagesGo_flatten CARDS_PER_PAGE l ([] : List α)
  simpa [_render_pages] using h

theorem _render_pages_ne_nil {α : Type} (l : List α) (h : l ≠ []) : _render_pages l ≠ [] :=
  renderPagesGo_ne_nil CARDS_PER_PAGE l h

theorem _render_pages_length {α : Type} (l : List α) :
    (_render_pages l).length = (l.length + 8) / 9 := by
  have h := renderPagesGo_length_nine l ([] : List α) (by simp)
  simpa [_render_pages] using h

theorem _render_pages_getSlot {α : Type} (l : List α) (n : ℕ) (hn : n < l.length) :
    getSlot (_render_pages l) (n / 9) (n % 9) = l[n]? := by
  have h := renderPagesGo_getSlot_nine l ([] : List α) n (by simp) hn
  simpa [_render_pages] using h

theorem _render_pages_getLast {α : Type} (l : List α) (h : 0 < l.length % 9) :
    (_render_pages l).getLast? = some (l.drop (l.length - l.length % 9)) := by
  have hg := renderPagesGo_getLast_nine l ([] : List α) (by simp) (by simpa using h)
  simpa [_render_pages] using hg

/-! ### Further dict helpers -/

theorem flatMap_congr_left {α β : Type} (l : List α) (f g : α → List β)
    (h : ∀ a ∈ l, f a = g a) : l.flatMap f = l.flatMap g := by
  induction l with
  | nil => rfl
  | cons a l ih =>
      simp only [List.flatMap_cons]
      rw [h a (List.mem_cons_self a l), ih (fun a ha => h a (List.mem_cons_of_mem _ ha))]

theorem dictGet_append_single_ne (m : List (String × ℤ)) (k s : String) (v d : ℤ)
    (h : ¬ s = k) : dictGet (m ++ [(k, v)]) s d = dictGet m s d := by
  unfold dictGet
  rw [List.find?_append]
  rcases e : m.find? (fun p => p.1 == s) with _ | p
  · have hk : ¬ k = s := fun hh => h hh.symm
    simp [e, List.find?_cons, hk, Option.orElse]
  · simp [e, Option.orElse]

/-! ### The claims -/

/-- C1: Front/back alignment.  For a game (whose front-card names are distinct,
a `GameAssets` invariant) and a quantity dict accepted by `generate_pdf`
(`totalFrontCards m > 0`), the `n`-th image of the front sequence (0-indexed)
is placed at page `n / 9`, slot `n % 9` of the front pages, and the `n`-th
image of the back sequence exists and is placed at page `n / 9`, slot `n % 9`
of the back pages: the same page index and the same slot index, for every `n`
below the front-sequence length. -/
theorem C1_front_back_alignment (game : GameAssets) (m : QuantityMap) (n : ℕ)
    (hnd : (game.front_cards.map CardAsset.name).Nodup)
    (hmk : (m.map Prod.fst).Nodup)
    (htot : 0 < totalFrontCards m)
    (hn : n < (_iter_front_sequence game.front_cards (normalizedCounts m)).length) :
    n < (_iter_back_sequence game.back_card.path (totalFrontCards m)).length ∧
    getSlot (_render_pages (_iter_front_sequence game.front_cards (normalizedCounts m)))
        (n / 9) (n % 9)
      = (_iter_front_sequence game.front_cards (normalizedCounts m))[n]? ∧
    getSlot (_render_pages (_iter_back_sequence game.back_card.path (totalFrontCards m)))
        (n / 9) (n % 9)
      = (_iter_back_sequence game.back_card.path (totalFrontCards m))[n]? := by
  have hle : ((_iter_front_sequence game.front_cards (normalizedCounts m)).length : ℤ)
      ≤ totalFrontCards m := by
    rw [length_iter_front_normalized]
    exact sum_dictGet_le (normalizedCounts m) game.front_cards
      (by rw [normalizedCounts_keys]; exact hmk) hnd (normalizedCounts_nonneg m)
  have hback : (_iter_back_sequence game.back_card.path (totalFrontCards m)).length
      = (totalFrontCards m).toNat := length_iter_back _ _ htot
  have hnback : n < (_iter_back_sequence game.back_card.path (totalFrontCards m)).length := by
    rw [hback]
    have h1 : (n : ℤ)
        < ((_iter_front_sequence game.front_cards (normalizedCounts m)).length : ℤ) := by
      exact_mod_cast hn
    omega
  exact ⟨hnback, _render_pages_getSlot _ n hn, _render_pages_getSlot _ n hnback⟩

/-- Witness for C1 at a concrete game and quantity dict (two copies of the
single front card; the second image, `n = 1`, sits at page 0, slot 1 on both
sides). -/
theorem C1_witness :
    1 < (_iter_back_sequence (GameAssets.mk "g" [CardAsset.mk "a" "g/a.png"]
          (CardAsset.mk "parte_atras" "g/b.png")).back_card.path
          (totalFrontCards [("a", 2)])).length ∧
    getSlot (_render_pages (_iter_front_sequence (GameAssets.mk "g"
          [CardAsset.mk "a" "g/a.png"] (CardAsset.mk "parte_atras" "g/b.png")).front_cards
          (normalizedCounts [("a", 2)]))) (1 / 9) (1 % 9)
      = (_iter_front_sequence (GameAssets.mk "g" [CardAsset.mk "a" "g/a.png"]
          (CardAsset.mk "parte_atras" "g/b.png")).front_cards
          (normalizedCounts [("a", 2)]))[1]? ∧
    getSlot (_render_pages (_iter_back_sequence (GameAssets.mk "g"
          [CardAsset.mk "a" "g/a.png"] (CardAsset.mk "parte_atras" "g/b.png")).back_card.path
          (totalFrontCards [("a", 2)]))) (1 / 9) (1 % 9)
      = (_iter_back_sequence (GameAssets.mk "g" [CardAsset.mk "a" "g/a.png"]
          (CardAsset.mk "parte_atras" "g/b.png")).back_card.path
          (totalFrontCards [("a", 2)]))[1]? :=
  C1_front_back_alignment
    (GameAssets.mk "g" [CardAsset.mk "a" "g/a.png"] (CardAsset.mk "parte_atras" "g/b.png"))
    [("a", 2)] 1 (by decide) (by decide) (by decide) (by decide)

/-- C2 counterexample: an entry whose key names no front card *does* affect the
output.  With one front card `"a"` and the quantity dict `{"b": 5}`,
`generate_pdf` does not raise `EmptySelectionError` (it returns a written
document), the front sequence is empty, yet five back copies are emitted —
so the unknown entry changed both the guard outcome and the back count. -/
theorem C2_counterexample :
    ((generate_pdf (GameAssets.mk "g" [CardAsset.mk "a" "g/a.png"]
        (CardAsset.mk "parte_atras" "g/b.png"))
        [("b", 5)] "out" "01-01-2026" (OutFS.mk [] [])).2).isOk = true ∧
    (_iter_front_sequence [CardAsset.mk "a" "g/a.png"] (normalizedCounts [("b", 5)])).length
      = 0 ∧
    (_iter_back_sequence "g/b.png" (totalFrontCards [("b", 5)])).length = 5 := by
  refine ⟨?_, by decide, by decide⟩
  rfl

/-- C2 amended: entries whose key is not a front-card name leave the front
sequence (hence the front pages) unchanged, but their clamped value is included
in `total_front_cards`, so they do raise the back-copy count (and can defeat
the empty-selection guard, as the counterexample shows). -/
theorem C2_unknown_names (cards : List CardAsset) (m : QuantityMap) (k : String) (v : ℤ)
    (hk : k ∉ cards.map CardAsset.name) :
    _iter_front_sequence cards (normalizedCounts (m ++ [(k, v)]))
      = _iter_front_sequence cards (normalizedCounts m) ∧
    totalFrontCards (m ++ [(k, v)]) = totalFrontCards m + max 0 v := by
  constructor
  · unfold _iter_front_sequence
    apply flatMap_congr_left
    intro card hc
    have hne : ¬ card.name = k := fun he =>
      hk (by rw [← he]; exact List.mem_map_of_mem CardAsset.name hc)
    have hsplit : normalizedCounts (m ++ [(k, v)])
        = normalizedCounts m ++ [(k, max 0 v)] := by
      simp [normalizedCounts]
    rw [hsplit, dictGet_append_single_ne (normalizedCounts m) k card.name (max 0 v) 0 hne]
  · simp [totalFrontCards, sumValues, normalizedCounts]

/-- Witness for the amended C2: appending the unknown entry `("b", 7)` leaves
the front sequence alone and adds 7 to the total. -/
theorem C2_witness :
    _iter_front_sequence [CardAsset.mk "a" "g/a.png"]
        (normalizedCounts ([("a", 2)] ++ [("b", 7)]))
      = _iter_front_sequence [CardAsset.mk "a" "g/a.png"] (normalizedCounts [("a", 2)]) ∧
    totalFrontCards ([("a", 2)] ++ [("b", 7)]) = totalFrontCards [("a", 2)] + max 0 7 :=
  C2_unknown_names [CardAsset.mk "a" "g/a.png"] [("a", 2)] "b" 7 (by decide)

/-- C3: Page-count formula.  For a valid pair — front-card names distinct, dict
keys distinct and all naming front cards — with positive total, the front pages
and the back pages each number `⌈totalFront / 9⌉` (written `(t + 8) / 9` in
`ℕ`), and the document written by `generate_pdf` has exactly the sum of the two
page counts. -/
theorem C3_page_count (game : GameAssets) (m : QuantityMap)
    (output_dir today : String) (fs : OutFS)
    (hnd : (game.front_cards.map CardAsset.name).Nodup)
    (hmk : (m.map Prod.fst).Nodup)
    (hsub : ∀ k ∈ m.map Prod.fst, k ∈ game.front_cards.map CardAsset.name)
    (htot : 0 < totalFrontCards m) :
    (_render_pages (_iter_front_sequence game.front_cards (normalizedCounts m))).length
      = ((totalFrontCards m).toNat + 8) / 9 ∧
    (_render_pages (_iter_back_sequence game.back_card.path (totalFrontCards m))).length
      = ((totalFrontCards m).toNat + 8) / 9 ∧
    ∃ pages : List (List String),
      (generate_pdf game m output_dir today fs).1.files.head?
        = some (output_dir ++ "/" ++ (game.name.toUpper ++ "_" ++ today ++ ".pdf"), pages) ∧
      pages.length
        = ((totalFrontCards m).toNat + 8) / 9 + ((totalFrontCards m).toNat + 8) / 9 := by
  have hfeq : ((_iter_front_sequence game.front_cards (normalizedCounts m)).length : ℤ)
      = totalFrontCards m := by
    rw [length_iter_front_normalized]
    exact sum_dictGet_eq (normalizedCounts m) game.front_cards
      (by rw [normalizedCounts_keys]; exact hmk) hnd
      (by rw [normalizedCounts_keys]; exact hsub)
  have hfnat : (_iter_front_sequence game.front_cards (normalizedCounts m)).length
      = (totalFrontCards m).toNat := by omega
  have hbnat : (_iter_back_sequence game.back_card.path (totalFrontCards m)).length
      = (totalFrontCards m).toNat := length_iter_back _ _ htot
  have hf := _render_pages_length (_iter_front_sequence game.front_cards (normalizedCounts m))
  have hb := _render_pages_length (_iter_back_sequence game.back_card.path (totalFrontCards m))
  rw [hfnat] at hf
  rw [hbnat] at hb
  refine ⟨hf, hb, ?_⟩
  have hguard : ¬ (sumValues (normalizedCounts m) ≤ 0) := by
    have he : totalFrontCards m = sumValues (normalizedCounts m) := rfl
    omega
  have hbackne : _iter_back_sequence game.back_card.path (totalFrontCards m) ≠ [] := by
    apply List.ne_nil_of_length_pos
    rw [hbnat]
    omega
  have hpagesne : _render_pages (_iter_front_sequence game.front_cards (normalizedCounts m))
      ++ _render_pages (_iter_back_sequence game.back_card.path (totalFrontCards m)) ≠ [] :=
    fun hh => _render_pages_ne_nil _ hbackne (List.append_eq_nil.mp hh).2
  have hif : ¬ ((_render_pages (_iter_front_sequence game.front_cards (normalizedCounts m))
      ++ _render_pages (_iter_back_sequence game.back_card.path
        (totalFrontCards m))).isEmpty = true) := by
    rw [List.isEmpty_iff]
    exact hpagesne
  refine ⟨_render_pages (_iter_front_sequence game.front_cards (normalizedCounts m))
      ++ _render_pages (_iter_back_sequence game.back_card.path (totalFrontCards m)), ?_, ?_⟩
  · simp only [generate_pdf, if_neg hguard]
    rw [show sumValues (normalizedCounts m) = totalFrontCards m from rfl, if_neg hif]
    rfl
  · rw [List.length_append, hf, hb]

/-- Witness for C3: one front card requested twice gives one front page, one
back page, and a written 2-page document. -/
theorem C3_witness :
    (_render_pages (_iter_front_sequence (GameAssets.mk "g" [CardAsset.mk "a" "g/a.png"]
        (CardAsset.mk "parte_atras" "g/b.png")).front_cards
        (normalizedCounts [("a", 2)]))).length
      = ((totalFrontCards [("a", 2)]).toNat + 8) / 9 ∧
    (_render_pages (_iter_back_sequence (GameAssets.mk "g" [CardAsset.mk "a" "g/a.png"]
        (CardAsset.mk "parte_atras" "g/b.png")).back_card.path
        (totalFrontCards [("a", 2)]))).length
      = ((totalFrontCards [("a", 2)]).toNat + 8) / 9 ∧
    ∃ pages : List (List String),
      (generate_pdf (GameAssets.mk "g" [CardAsset.mk "a" "g/a.png"]
          (CardAsset.mk "parte_atras" "g/b.png")) [("a", 2)] "out" "d"
          (OutFS.mk [] [])).1.files.head?
        = some ("out" ++ "/" ++ ((GameAssets.mk "g" [CardAsset.mk "a" "g/a.png"]
            (CardAsset.mk "parte_atras" "g/b.png")).name.toUpper ++ "_" ++ "d" ++ ".pdf"),
            pages) ∧
      pages.length = ((totalFrontCards [("a", 2)]).toNat + 8) / 9
        + ((totalFrontCards [("a", 2)]).toNat + 8) / 9 :=
  C3_page_count (GameAssets.mk "g" [CardAsset.mk "a" "g/a.png"]
      (CardAsset.mk "parte_atras" "g/b.png"))
    [("a", 2)] "out" "d" (OutFS.mk [] []) (by decide) (by decide) (by decide) (by decide)

/-- C4: Empty selection is rejected atomically.  When every requested value is
zero or negative, `generate_pdf` returns the `EmptySelectionError` with the
filesystem unchanged: no directory created, no file written, no page rendered. -/
theorem C4_empty_selection (game : GameAssets) (m : QuantityMap)
    (output_dir today : String) (fs : OutFS)
    (h : ∀ p ∈ m, p.2 ≤ 0) :
    generate_pdf game m output_dir today fs = (fs, Except.error GenError.emptySelection) := by
  have hz : sumValues (normalizedCounts m) = 0 := by
    unfold sumValues normalizedCounts
    rw [List.map_map]
    apply List.sum_eq_zero
    intro x hx
    simp only [List.mem_map, Function.comp] at hx
    obtain ⟨p, hp, hpx⟩ := hx
    rw [← hpx]
    exact max_eq_left (h p hp)
  simp only [generate_pdf, if_pos (le_of_eq hz)]

/-- Witness for C4 at a concrete all-non-positive quantity dict. -/
theorem C4_witness :
    generate_pdf (GameAssets.mk "g" [CardAsset.mk "a" "g/a.png"]
        (CardAsset.mk "parte_atras" "g/b.png"))
      [("a", 0), ("b", -3)] "out" "d" (OutFS.mk ["keep"] [])
      = (OutFS.mk ["keep"] [], Except.error GenError.emptySelection) :=
  C4_empty_selection (GameAssets.mk "g" [CardAsset.mk "a" "g/a.png"]
      (CardAsset.mk "parte_atras" "g/b.png"))
    [("a", 0), ("b", -3)] "out" "d" (OutFS.mk ["keep"] []) (by decide)

/-- C5: PageCompositor termination behaviour.  The empty sequence produces no
page at all; and when the sequence ends mid-page (final slot cursor
`len % 9` strictly between 0 and 9) the partial page is still finalized as the
last page, holding exactly the trailing `len % 9` images in slots
`0 … len % 9 - 1` (the remaining slots receive no paste and stay blank white). -/
theorem C5_render_pages_termination (seq : List String) (h : 0 < seq.length % 9) :
    _render_pages ([] : List String) = [] ∧
    (_render_pages seq).getLast? = some (seq.drop (seq.length - seq.length % 9)) ∧
    (seq.drop (seq.length - seq.length % 9)).length = seq.length % 9 ∧
    seq.length % 9 < 9 := by
  refine ⟨rfl, _render_pages_getLast seq h, ?_, by omega⟩
  rw [List.length_drop]
  omega

/-- Witness for C5 with a 12-image sequence: the last page holds 3 images. -/
theorem C5_witness :
    _render_pages ([] : List String) = [] ∧
    (_render_pages (List.replicate 12 "x")).getLast?
      = some ((List.replicate 12 "x").drop
          ((List.replicate 12 "x").length - (List.replicate 12 "x").length % 9)) ∧
    ((List.replicate 12 "x").drop
        ((List.replicate 12 "x").length - (List.replicate 12 "x").length % 9)).length
      = (List.replicate 12 "x").length % 9 ∧
    (List.replicate 12 "x").length % 9 < 9 :=
  C5_render_pages_termination (List.replicate 12 "x") (by decide)

/-- C6 counterexample: the grid is *not* symmetric about the page center on the
horizontal axis.  The first slot of the top row sits at x = 362 and the last at
x = 1954, so the left margin is 362 while the right margin is
`PAGE_WIDTH - (1954 + CARD_WIDTH) = 361`. -/
theorem C6_counterexample :
    _compute_layout_positions[0]? = some (362, 336) ∧
    _compute_layout_positions[2]? = some (1954, 336) ∧
    ¬ ((362 : ℤ) = PAGE_WIDTH - (1954 + CARD_WIDTH)) := by
  refine ⟨?_, ?_, by decide⟩ <;> rw [compute_layout_positions_eq] <;> rfl

/-- C6 amended: the nine slot coordinates are ordered row-major (each row left
to right at x = 362, 1158, 1954, rows top to bottom at y = 336, 1580, 2824); the
grid is symmetric about the page center vertically (top margin = bottom
margin = 336), but horizontally the exact margin 361.5 is not an integer and
banker's rounding puts the left margin at 362, one pixel more than the right
margin 361. -/
theorem C6_layout :
    _compute_layout_positions =
      [(362, 336), (1158, 336), (1954, 336), (362, 1580), (1158, 1580), (1954, 1580),
       (362, 2824), (1158, 2824), (1954, 2824)] ∧
    (336 : ℤ) = PAGE_HEIGHT - (2824 + CARD_HEIGHT) ∧
    (362 : ℤ) = PAGE_WIDTH - (1954 + CARD_WIDTH) + 1 :=
  ⟨compute_layout_positions_eq, by decide, by decide⟩

/-- C7: the defensive `NoPagesProducedError` branch is unreachable.  For every
input, once the empty-selection guard passes the back sequence is non-empty, so
`front_pages ++ back_pages` is non-empty and `generate_pdf` never returns
`NoPagesProducedError`. -/
theorem C7_no_pages_unreachable (game : GameAssets) (m : QuantityMap)
    (output_dir today : String) (fs : OutFS) :
    (generate_pdf game m output_dir today fs).2 ≠ Except.error GenError.noPagesProduced := by
  by_cases hg : sumValues (normalizedCounts m) ≤ 0
  · simp only [generate_pdf, if_pos hg]
    simp
  · have htot : 0 < totalFrontCards m := by
      have he : totalFrontCards m = sumValues (normalizedCounts m) := rfl
      omega
    have hbackne : _iter_back_sequence game.back_card.path (totalFrontCards m) ≠ [] := by
      apply List.ne_nil_of_length_pos
      rw [length_iter_back _ _ htot]
      omega
    have hif : ¬ ((_render_pages (_iter_front_sequence game.front_cards (normalizedCounts m))
        ++ _render_pages (_iter_back_sequence game.back_card.path
          (totalFrontCards m))).isEmpty = true) := by
      rw [List.isEmpty_iff]
      exact fun hh => _render_pages_ne_nil _ hbackne (List.append_eq_nil.mp hh).2
    simp only [generate_pdf, if_neg hg]
    rw [show sumValues (normalizedCounts m) = totalFrontCards m from rfl, if_neg hif]
    simp

/-- C8: catalog exclusion.  A sub-folder of the base directory with no
allowed-extension file whose stem lowercases to `parte_atras`, or with such a
back card but no allowed-extension front image, contributes no key to
`list_games`'s mapping (and the `ValueError` it may raise is caught inside
`list_games`, which stays a total function). -/
theorem C8_bad_folder_excluded (fs : CatalogFS) (base : String) (folder : Folder)
    (hmem : folder ∈ dirList fs base)
    (hnodup : ((dirList fs base).map Folder.name).Nodup)
    (hbad : (¬ ∃ f ∈ folder.files, lowerStr f.ext ∈ ALLOWED_EXTENSIONS
              ∧ lowerStr f.stem = "parte_atras")
          ∨ ((∃ f ∈ folder.files, lowerStr f.ext ∈ ALLOWED_EXTENSIONS
              ∧ lowerStr f.stem = "parte_atras")
            ∧ ¬ ∃ f ∈ folder.files, lowerStr f.ext ∈ ALLOWED_EXTENSIONS
              ∧ ¬ lowerStr f.stem = "parte_atras")) :
    folder.name ∉ (list_games fs base).2.map Prod.fst := by
  have hskip : ∀ a, _load_game_assets folder = Except.ok a → a.front_cards = [] := by
    rcases hbad with hb | hb
    · push_neg at hb
      intro a ha
      rw [load_error_of_no_back folder hb] at ha
      exact absurd ha (by simp)
    · obtain ⟨_, hb2⟩ := hb
      push_neg at hb2
      exact load_fronts_empty folder hb2
  show folder.name
      ∉ (listGamesLoop (sortByKey Folder.name (dirList (mkdirBase fs base) base))).map Prod.fst
  rw [dirList_mkdirBase]
  refine listGamesLoop_aux folder.name (sortByKey Folder.name (dirList fs base)) []
    (by simp) ?_
  intro f hf hname a ha
  have hf' : f ∈ dirList fs base := (mem_sortByKey Folder.name f _).mp hf
  have hfe : f = folder := List.inj_on_of_nodup_map hnodup hf' hmem hname
  exact hskip a (hfe ▸ ha)

/-- Witness for C8: a base directory holding one folder whose only image is the
back card (no front image); its name is absent from the catalog. -/
theorem C8_witness :
    (Folder.mk "g" [FileEntry.mk "parte_atras" ".png"]
        ∈ dirList [("b", [Folder.mk "g" [FileEntry.mk "parte_atras" ".png"]])] "b") ∧
    (((dirList [("b", [Folder.mk "g" [FileEntry.mk "parte_atras" ".png"]])] "b").map
        Folder.name).Nodup) ∧
    ((Folder.mk "g" [FileEntry.mk "parte_atras" ".png"]).name
      ∉ (list_games [("b", [Folder.mk "g" [FileEntry.mk "parte_atras" ".png"]])] "b").2.map
          Prod.fst) :=
  ⟨by decide, by decide,
    C8_bad_folder_excluded [("b", [Folder.mk "g" [FileEntry.mk "parte_atras" ".png"]])] "b"
      (Folder.mk "g" [FileEntry.mk "parte_atras" ".png"]) (by decide) (by decide)
      (Or.inr (by decide))⟩

/-- C9 counterexample: `list_games` is not a pure read of the filesystem — on a
filesystem where the base directory does not exist, it *creates* the base
directory (`mkdir(parents=True, exist_ok=True)`), changing filesystem state. -/
theorem C9_counterexample :
    (list_games ([] : CatalogFS) "base").1 = [("base", [])] ∧
    ([("base", ([] : List Folder))] : CatalogFS) ≠ ([] : CatalogFS) :=
  ⟨rfl, by decide⟩

/-- C9 amended: apart from creating the base directory when it is absent (the
only filesystem change, as the counterexample shows), `list_games` is a
stateless repeatable read: it keeps no hidden state, a second call on the
resulting filesystem returns exactly the same filesystem and mapping, and the
filesystem is otherwise untouched. -/
theorem C9_list_games_repeatable (fs : CatalogFS) (base : String) :
    list_games (list_games fs base).1 base = list_games fs base ∧
    ((list_games fs base).1 = fs ∨ (list_games fs base).1 = (base, []) :: fs) := by
  constructor
  · show list_games (mkdirBase fs base) base = list_games fs base
    unfold list_games
    rw [mkdirBase_idem]
  · show mkdirBase fs base = fs ∨ mkdirBase fs base = (base, []) :: fs
    unfold mkdirBase
    rcases e : fs.find? (fun p => p.1 == base) with _ | p
    · right; rw [e]
    · left; rw [e]

/-- C10: every slot keeps a card fully on the page: each computed position
`(x, y)` satisfies `0 ≤ x`, `x + CARD_WIDTH ≤ PAGE_WIDTH`, `0 ≤ y`,
`y + CARD_HEIGHT ≤ PAGE_HEIGHT`, so no pasted card is clipped by the page
boundary. -/
theorem C10_slots_on_page (p : ℤ × ℤ) (hp : p ∈ _compute_layout_positions) :
    0 ≤ p.1 ∧ p.1 + CARD_WIDTH ≤ PAGE_WIDTH ∧ 0 ≤ p.2 ∧ p.2 + CARD_HEIGHT ≤ PAGE_HEIGHT := by
  have hall : ∀ q ∈ _compute_layout_positions,
      0 ≤ q.1 ∧ q.1 + CARD_WIDTH ≤ PAGE_WIDTH ∧ 0 ≤ q.2 ∧ q.2 + CARD_HEIGHT ≤ PAGE_HEIGHT := by
    rw [compute_layout_positions_eq]
    decide
  exact hall p hp

/-- Witness for C10 at the first slot. -/
theorem C10_witness :
    0 ≤ ((362, 336) : ℤ × ℤ).1 ∧ ((362, 336) : ℤ × ℤ).1 + CARD_WIDTH ≤ PAGE_WIDTH ∧
    0 ≤ ((362, 336) : ℤ × ℤ).2 ∧ ((362, 336) : ℤ × ℤ).2 + CARD_HEIGHT ≤ PAGE_HEIGHT :=
  C10_slots_on_page (362, 336) (by rw [compute_layout_positions_eq]; decide)

end PdfGen
